import Mathlib

set_option maxHeartbeats 1000000

namespace FDS

/-!
Verification development for the fds repository: a shallow embedding of
the sorted-sequence algorithms (src/internal/sorted/sorted_functions.go),
the index-addressed linked list (src/ll/linked_list.go, instantiated at
element type Int, modelling Go int), the percentage value type
(package contracts), and — since the mm.BuddyAllocator package is not part
of the provided sources — a buddy allocator modelled from the spec.

Go machine integers: slice indices and lengths are modelled as Nat
(Go guarantees they are non-negative and below 2^63); the one place where
signed 64-bit overflow matters (the galloping span doubling) keeps the
64-bit bit pattern as a Nat below 2^64 and interprets it as a signed value
at each use.  Loops are embedded as fuel-indexed structural recursions
returning Option: a none result means the fuel bound was exceeded or an
out-of-bounds slice read occurred (a Go panic); totality theorems show
these never happen for inputs the program can actually see.
-/

/-! ## SortedSequenceOps: embedding of src/internal/sorted/sorted_functions.go -/

/-- The binary-search loop of BinarySearchInt (lines 21-31): narrows
[low, high) until low = high, reading slice[mid] each iteration.
Fuel-indexed; a none result models fuel exhaustion or an out-of-bounds
read, neither of which is reachable (bsLoop_total). -/
def bsLoop (slice : List Int) (target : Int) : Nat → Nat → Nat → Option Nat
  | 0, _, _ => none
  | fuel+1, low, high =>
    if low < high then
      let mid := (low + high) / 2
      match slice.get? mid with
      | none => none
      | some v =>
        if v < target then bsLoop slice target fuel (mid+1) high
        else bsLoop slice target fuel low mid
    else some low

/-- The first-occurrence backward walk of BinarySearchInt (lines 34-36):
Go's `for low > 0 && slice[low-1] == target { low-- }`, structural on low.
The read of slice[low-1] is expressed with get?; in every reachable call
low ≤ slice.length so the read is in bounds. -/
def walkBack (slice : List Int) (target : Int) : Nat → Nat
  | 0 => 0
  | l+1 => if slice.get? l = some target then walkBack slice target l else l+1

/-- BinarySearchInt (sorted_functions.go lines 20-42), T instantiated at
Int.  Returns the pair (index, found); a none from the loop propagates
(it models a Go panic and is shown unreachable by BinarySearchInt_isSome). -/
def BinarySearchInt (slice : List Int) (target : Int) : Option (Nat × Bool) :=
  (bsLoop slice target (slice.length + 1) 0 slice.length).map (fun low =>
    if low < slice.length ∧ slice.get? low = some target
    then (walkBack slice target low, true)
    else (low, false))

/-- Interpretation of a 64-bit pattern (a Nat below 2^64) as Go's signed
int: Go's spanSize is a 64-bit int whose left shift wraps around. -/
def toSigned64 (bits : Nat) : Int :=
  if bits < 2^63 then (bits : Int) else (bits : Int) - 2^64

/-- Go sub-slice slice[a:b]. -/
def subrange (slice : List Int) (a b : Nat) : List Int :=
  (slice.drop a).take (b - a)

/-- The probe loop of GallopingSearchInt (lines 69-83).  spanBits holds
the 64-bit pattern of Go's spanSize; currentIndex is the exact value of
Go's `prevIndex + spanSize` (no overflow: prevIndex < 2^63 and the span
pattern is always a power of two ≤ 2^63 on reachable states).  When the
probe passes the end or falls below zero, Go clamps currentIndex to
len-1 and binary-searches slice[prevIndex : currentIndex+1]; note the Go
code returns that sub-range-relative index unchanged. -/
def gallopLoop (slice : List Int) (target : Int) : Nat → Nat → Nat → Option (Nat × Bool)
  | 0, _, _ => none
  | fuel+1, prevIndex, spanBits =>
    let currentIndex : Int := (prevIndex : Int) + toSigned64 spanBits
    if currentIndex < 0 ∨ (slice.length : Int) ≤ currentIndex then
      BinarySearchInt (subrange slice prevIndex slice.length) target
    else
      match slice.get? currentIndex.toNat with
      | none => none
      | some v =>
        if v < target then
          gallopLoop slice target fuel currentIndex.toNat ((spanBits * 2) % 2^64)
        else
          BinarySearchInt (subrange slice prevIndex (currentIndex.toNat + 1)) target

/-- GallopingSearchInt (sorted_functions.go lines 59-84): below the
threshold 64 it delegates to BinarySearchInt, otherwise runs the probe
loop from prevIndex 0 with initial span 64.  The probe loop runs at most
58 iterations before the span pattern wraps negative, so fuel 64 is
sufficient for every Go-sized slice (GallopingSearchInt_total). -/
def GallopingSearchInt (slice : List Int) (target : Int) : Option (Nat × Bool) :=
  if slice.length < 64 then BinarySearchInt slice target
  else gallopLoop slice target 64 0 64

/-- InsertInt (sorted_functions.go lines 100-110): the append-copy-store
sequence of lines 106-108 inserts value at position index. -/
def InsertInt (slice : List Int) (value : Int) (allowDuplicates : Bool) : Option (List Int) :=
  match GallopingSearchInt slice value with
  | none => none
  | some (index, found) =>
    if found ∧ ¬allowDuplicates then some slice
    else some (slice.take index ++ value :: slice.drop index)

/-- An ascending sequence in the sense of the spec: non-decreasing,
duplicates permitted (the tests exercise runs of equal values). -/
def Ascending (l : List Int) : Prop := List.Sorted (· ≤ ·) l

instance (l : List Int) : Decidable (Ascending l) :=
  inferInstanceAs (Decidable (List.Pairwise _ l))

/-! ## BuddyAllocator, modelled from the spec

The mm package (github.com/ConanHorus/fds/mm) is not among the provided
sources; only its callers in src/ll/linked_list.go are.  The allocator
below is therefore modelled from spec sections 4.2 and 6: a power-of-two
buddy allocator with per-order ascending duplicate-free free lists,
LIFO pop from the chosen free list, split-down on allocation, a full
double-free sweep plus buddy merge walk on free, and elastic growth.
The linked list only ever requests or releases single units. -/

/-- Floor of the base-2 logarithm, by structural recursion on a fuel
that bounds the number of halvings (n itself is always enough). -/
def log2F : Nat → Nat → Nat
  | 0, _ => 0
  | fuel+1, n => if 2 ≤ n then log2F fuel (n / 2) + 1 else 0

/-- Modelled from the spec: orderOf(size) is the smallest order whose
block size 2^order is at least size; size 0 is a degenerate input
mapping to order 0. -/
def orderOf (size : Nat) : Nat :=
  if size ≤ 1 then 0 else log2F (size - 1) (size - 1) + 1

/-- Modelled from the spec: sorted duplicate-free insertion into one
order's free list (the spec keeps every free list ascending and
duplicate-free via the sorted-sequence operations). -/
def insertSorted (v : Nat) : List Nat → List Nat
  | [] => [v]
  | x :: xs =>
    if v < x then v :: x :: xs
    else if v = x then x :: xs
    else x :: insertSorted v xs

/-- Modelled from the spec: removal of one offset from a free list. -/
def removeSorted (v : Nat) : List Nat → List Nat
  | [] => []
  | x :: xs => if x = v then xs else x :: removeSorted v xs

/-- Modelled from the spec: allocator state.  freeLists has one
ascending offset list per order 0..maxOrder. -/
structure BuddyAllocator where
  capacity : Nat
  maxOrder : Nat
  fixedMaxOrder : Bool
  used : Nat
  freeLists : List (List Nat)
deriving DecidableEq

/-- Modelled from the spec: construction with an initial capacity and no
fixed maximum order (the linked list constructs its allocator with
WithInitialCapacity only, so maxOrder is elastic: orderOf(capacity)).
The capacity is rounded up to a multiple of the top block size and the
top-order free list is populated across the whole capacity. -/
def NewBuddyAllocator (initialCapacity : Nat) : BuddyAllocator :=
  let mo := orderOf initialCapacity
  let bs := 2^mo
  let cap := ((initialCapacity + bs - 1) / bs) * bs
  { capacity := cap, maxOrder := mo, fixedMaxOrder := false, used := 0,
    freeLists := List.replicate mo [] ++ [(List.range (cap / bs)).map (fun k => k * bs)] }

/-- Modelled from the spec: scan orders upward from required for the
first non-empty free list; the chosen list is treated as a stack, so the
last (most recently inserted) offset leaves first. -/
def allocScanFrom (fls : List (List Nat)) : Nat → Nat → Option (Nat × Nat)
  | _, 0 => none
  | o, fuel+1 =>
    match (fls.getD o []).getLast? with
    | some off => some (o, off)
    | none => allocScanFrom fls (o+1) fuel

/-- Modelled from the spec: while the popped block's order exceeds the
required order, split it in half; the upper buddy half is inserted
(sorted) into the next lower order's free list, the lower half continues. -/
def splitDown (required : Nat) (offset : Nat) : Nat → List (List Nat) → Nat × List (List Nat)
  | 0, fls => (offset, fls)
  | o+1, fls =>
    if o+1 ≤ required then (offset, fls)
    else splitDown required offset o (fls.set o (insertSorted (offset + 2^o) (fls.getD o [])))

/-- Modelled from the spec: grow() appends one block of size
max(2^maxOrder, 8) at offset = old capacity, recomputes the elastic
maxOrder from the new capacity (extending the free-list array), and
inserts the new block into its natural order's free list. -/
def grow (a : BuddyAllocator) : BuddyAllocator :=
  let b := max (2^a.maxOrder) 8
  let newCap := a.capacity + b
  let mo := if a.fixedMaxOrder then a.maxOrder else orderOf newCap
  let fls := a.freeLists ++ List.replicate (mo + 1 - a.freeLists.length) []
  { capacity := newCap, maxOrder := mo, fixedMaxOrder := a.fixedMaxOrder, used := a.used,
    freeLists := fls.set (orderOf b) (insertSorted a.capacity (fls.getD (orderOf b) [])) }

/-- Modelled from the spec: step 2 of Allocate in elastic mode grows
repeatedly until maxOrder is at least the required order; each growth
step increases maxOrder, so fuel required+1 suffices. -/
def growUntil (required : Nat) : Nat → BuddyAllocator → BuddyAllocator × Bool
  | 0, a => (a, false)
  | fuel+1, a =>
    if required ≤ a.maxOrder then (a, false)
    else ((growUntil required fuel (grow a)).1, true)

/-- Modelled from the spec: step 3 of Allocate — pop the first available
block at or above the required order, split it down, and mark the
requested units used. -/
def allocateFrom (a : BuddyAllocator) (required : Nat) (size : Nat) : Option (BuddyAllocator × Nat) :=
  match allocScanFrom a.freeLists required (a.freeLists.length - required) with
  | none => none
  | some (order, off) =>
    let fls1 := a.freeLists.set order ((a.freeLists.getD order []).dropLast)
    let (offset, fls2) := splitDown required off order fls1
    some ({ a with freeLists := fls2, used := a.used + size }, offset)

/-- Modelled from the spec: Allocate(size) -> (state, offset, grew, ok).
A fixed maxOrder below the required order fails immediately; otherwise
the arena grows as needed, the scan runs, and on failure the allocator
grows once more and retries exactly once. -/
def Allocate (a : BuddyAllocator) (size : Nat) : BuddyAllocator × Nat × Bool × Bool :=
  let required := orderOf size
  if a.maxOrder < required ∧ a.fixedMaxOrder then (a, 0, false, false)
  else
    let g := growUntil required (required + 1) a
    match allocateFrom g.1 required size with
    | some (a2, offset) => (a2, offset, g.2, true)
    | none =>
      let a2 := grow g.1
      match allocateFrom a2 required size with
      | some (a3, offset) => (a3, offset, true, true)
      | none => (a2, 0, true, false)

/-- Modelled from the spec: the buddy merge walk of Free, steps 4-5.
At each order: stop and insert if the running index is not aligned to
the next order's block size; otherwise merge with the buddy (obtained by
XOR with the block-size bit) when that buddy is free, and continue one
order up.  The fuel is maxOrder - requiredOrder; at fuel 0 the walk has
reached maxOrder and inserts there. -/
def mergeUp : Nat → Nat → Nat → List (List Nat) → List (List Nat)
  | 0, index, order, fls => fls.set order (insertSorted index (fls.getD order []))
  | fuel+1, index, order, fls =>
    if index % 2^(order+1) ≠ 0 then fls.set order (insertSorted index (fls.getD order []))
    else
      let buddy := index ^^^ 2^order
      if (fls.getD order []).contains buddy then
        mergeUp fuel (min index buddy) (order+1) (fls.set order (removeSorted buddy (fls.getD order [])))
      else fls.set order (insertSorted index (fls.getD order []))

/-- Modelled from the spec: Free(index, size) -> (state, ok).  Rejects an
out-of-range index, then sweeps every order's free list for a double
free before mutating anything, then decrements used and runs the merge
walk from the required order. -/
def Free (a : BuddyAllocator) (index : Nat) (size : Nat) : BuddyAllocator × Bool :=
  if a.capacity ≤ index then (a, false)
  else if a.freeLists.any (fun l => l.contains index) then (a, false)
  else
    let required := orderOf size
    ({ a with used := a.used - size,
              freeLists := mergeUp (a.maxOrder - required) index required a.freeLists }, true)

/-! ## IndexedLinkedList: embedding of src/ll/linked_list.go, T = Int -/

/-- The internal node record linkedListNode (linked_list.go lines 38-42):
next, previous and valueIndex are uint64 slot indices, 0 the null
sentinel. -/
structure LinkedListNodeSlot where
  next : Nat
  previous : Nat
  valueIndex : Nat
deriving DecidableEq

instance : Inhabited LinkedListNodeSlot := ⟨⟨0, 0, 0⟩⟩

/-- The list state LinkedList[T] (lines 18-26) at T = Int.  The ref field
models Go pointer identity of the list object: two lists are the same
object exactly when their refs coincide (NewLinkedList is given a fresh
ref by its caller). -/
structure LinkedList where
  head : Nat
  tail : Nat
  size : Nat
  nodes : List LinkedListNodeSlot
  values : List Int
  memory : BuddyAllocator
  ref : Nat
deriving DecidableEq

/-- The external handle LinkedListNode[T] (lines 29-36) at T = Int: a
snapshot carrying the value, the node's slot index (valueIndex), the
owning-list back-reference (modelled by the list's identity ref) and the
snapshotted next/previous slot indices. -/
structure LinkedListNode where
  value : Int
  valueIndex : Nat
  listRef : Nat
  next : Nat
  previous : Nat
deriving DecidableEq

/-- NewLinkedList (lines 60-78): optional initial size (Go variadic,
modelled as a list), clamped below by the default 16; backing arrays get
one extra slot for the index-0 sentinel. -/
def NewLinkedList (ref : Nat) (initialSize : List Nat) : LinkedList :=
  let sz := match initialSize with | [] => 16 | x :: _ => max x 16
  { head := 0, tail := 0, size := 0,
    nodes := List.replicate (sz + 1) default,
    values := List.replicate (sz + 1) 0,
    memory := NewBuddyAllocator sz, ref := ref }

/-- The copy-grow of the backing arrays after the allocator grew
(e.g. lines 87-94): Go allocates fresh arrays of length capacity+1 and
copies the old contents. -/
def resizeTo (n : Nat) (d : α) (l : List α) : List α :=
  (l ++ List.replicate (n - l.length) d).take n

/-- Append (lines 84-114). -/
def Append (l : LinkedList) (value : Int) : LinkedList :=
  let (mem, offset, grew, _ok) := Allocate l.memory 1
  let newNodeIndex := offset + 1
  let nodes0 := if grew then resizeTo (mem.capacity + 1) default l.nodes else l.nodes
  let values0 := if grew then resizeTo (mem.capacity + 1) 0 l.values else l.values
  let values1 := values0.set newNodeIndex value
  let newNode : LinkedListNodeSlot := { next := 0, previous := l.tail, valueIndex := newNodeIndex }
  let nodes1 := nodes0.set newNodeIndex newNode
  let nodes2 :=
    if l.tail ≠ 0 then nodes1.set l.tail { (nodes1.getD l.tail default) with next := newNodeIndex }
    else nodes1
  { head := if l.head = 0 then newNodeIndex else l.head,
    tail := newNodeIndex, size := l.size + 1,
    nodes := nodes2, values := values1, memory := mem, ref := l.ref }

/-- Prepend (lines 201-231). -/
def Prepend (l : LinkedList) (value : Int) : LinkedList :=
  let (mem, offset, grew, _ok) := Allocate l.memory 1
  let newNodeIndex := offset + 1
  let nodes0 := if grew then resizeTo (mem.capacity + 1) default l.nodes else l.nodes
  let values0 := if grew then resizeTo (mem.capacity + 1) 0 l.values else l.values
  let values1 := values0.set newNodeIndex value
  let newNode : LinkedListNodeSlot := { next := l.head, previous := 0, valueIndex := newNodeIndex }
  let nodes1 := nodes0.set newNodeIndex newNode
  let nodes2 :=
    if l.head ≠ 0 then nodes1.set l.head { (nodes1.getD l.head default) with previous := newNodeIndex }
    else nodes1
  { head := newNodeIndex,
    tail := if l.tail = 0 then newNodeIndex else l.tail, size := l.size + 1,
    nodes := nodes2, values := values1, memory := mem, ref := l.ref }

/-- Head (lines 120-133): a snapshot handle of the first node, none when
the list is empty. -/
def Head (l : LinkedList) : Option LinkedListNode :=
  if l.head = 0 then none
  else
    let node := l.nodes.getD l.head default
    some { value := l.values.getD node.valueIndex 0, valueIndex := node.valueIndex,
           listRef := l.ref, next := node.next, previous := node.previous }

/-- Tail (lines 262-275). -/
def Tail (l : LinkedList) : Option LinkedListNode :=
  if l.tail = 0 then none
  else
    let node := l.nodes.getD l.tail default
    some { value := l.values.getD node.valueIndex 0, valueIndex := node.valueIndex,
           listRef := l.ref, next := node.next, previous := node.previous }

/-- Size (lines 281-283). -/
def Size (l : LinkedList) : Nat := l.size

/-- PopHead (lines 139-164): frees allocator offset nodeIndex - 1 (the
shift-by-one between slot indices and arena offsets), relinks the new
head, decrements size, and returns the removed node's snapshot. -/
def PopHead (l : LinkedList) : Option LinkedListNode × LinkedList :=
  if l.head = 0 then (none, l)
  else
    let nodeIndex := l.head
    let node := l.nodes.getD nodeIndex default
    let (mem, _ok) := Free l.memory (nodeIndex - 1) 1
    let newHead := node.next
    let nodes1 :=
      if newHead ≠ 0 then l.nodes.set newHead { (l.nodes.getD newHead default) with previous := 0 }
      else l.nodes
    (some { value := l.values.getD node.valueIndex 0, listRef := l.ref,
            valueIndex := node.valueIndex, next := node.next, previous := node.previous },
     { head := newHead, tail := if newHead ≠ 0 then l.tail else 0,
       size := l.size - 1, nodes := nodes1, values := l.values, memory := mem, ref := l.ref })

/-- PopTail (lines 170-195). -/
def PopTail (l : LinkedList) : Option LinkedListNode × LinkedList :=
  if l.tail = 0 then (none, l)
  else
    let nodeIndex := l.tail
    let node := l.nodes.getD nodeIndex default
    let (mem, _ok) := Free l.memory (nodeIndex - 1) 1
    let newTail := node.previous
    let nodes1 :=
      if newTail ≠ 0 then l.nodes.set newTail { (l.nodes.getD newTail default) with next := 0 }
      else l.nodes
    (some { value := l.values.getD node.valueIndex 0, listRef := l.ref,
            valueIndex := node.valueIndex, next := node.next, previous := node.previous },
     { head := if newTail ≠ 0 then l.head else 0, tail := newTail,
       size := l.size - 1, nodes := nodes1, values := l.values, memory := mem, ref := l.ref })

/-- The walk of findNodeIndex (lines 398-410): follow next from head
comparing valueIndex fields; reaching the sentinel yields Go's 0.  The
fuel bounds the walk length; exhausting it (none) models a diverging Go
loop on a cyclic chain, which cannot happen on the states evaluated
here. -/
def findNodeIndexLoop (l : LinkedList) (vi : Nat) : Nat → Nat → Option Nat
  | _, 0 => none
  | currentIndex, fuel+1 =>
    if currentIndex = 0 then some 0
    else
      let node := l.nodes.getD currentIndex default
      if node.valueIndex = vi then some currentIndex
      else findNodeIndexLoop l vi node.next fuel

/-- findNodeIndex (lines 398-410). -/
def findNodeIndex (l : LinkedList) (node : LinkedListNode) : Option Nat :=
  findNodeIndexLoop l node.valueIndex l.head (l.nodes.length + 1)

/-- Remove (lines 237-256): a nil or foreign handle is a silent no-op;
otherwise the node is unlinked through the handle's stored
previous/next, and only then is findNodeIndex consulted (on the already
unlinked state) for the offset passed to Free. -/
def Remove (l : LinkedList) (h : Option LinkedListNode) : Option LinkedList :=
  match h with
  | none => some l
  | some node =>
    if node.listRef ≠ l.ref then some l
    else
      let nodes1 :=
        if node.previous ≠ 0 then
          l.nodes.set node.previous { (l.nodes.getD node.previous default) with next := node.next }
        else l.nodes
      let head1 := if node.previous ≠ 0 then l.head else node.next
      let nodes2 :=
        if node.next ≠ 0 then
          nodes1.set node.next { (nodes1.getD node.next default) with previous := node.previous }
        else nodes1
      let tail1 := if node.next ≠ 0 then l.tail else node.previous
      let mid : LinkedList :=
        { head := head1, tail := tail1, size := l.size,
          nodes := nodes2, values := l.values, memory := l.memory, ref := l.ref }
      match findNodeIndex mid node with
      | none => none
      | some idx =>
        let (mem, _ok) := Free mid.memory idx 1
        some { mid with memory := mem, size := mid.size - 1 }

/-- InsertNext (lines 289-320), a method on the handle: Go dereferences
the receiver immediately, so a nil handle is a runtime panic (none), not
a no-op.  The handle's own list is the list acted upon.  (Go also
updates the handle's next field in place; the handle copy is not
returned here.) -/
def InsertNext (l : LinkedList) (h : Option LinkedListNode) (value : Int) : Option LinkedList :=
  match h with
  | none => none
  | some node =>
    let (mem, offset, grew, _ok) := Allocate l.memory 1
    let newNodeIndex := offset + 1
    let nodes0 := if grew then resizeTo (mem.capacity + 1) default l.nodes else l.nodes
    let values0 := if grew then resizeTo (mem.capacity + 1) 0 l.values else l.values
    let values1 := values0.set newNodeIndex value
    let l1 : LinkedList :=
      { head := l.head, tail := l.tail, size := l.size,
        nodes := nodes0, values := values1, memory := mem, ref := l.ref }
    match findNodeIndex l1 node with
    | none => none
    | some thisIndex =>
      let newNode : LinkedListNodeSlot :=
        { next := node.next, previous := thisIndex, valueIndex := newNodeIndex }
      let nodes1 := l1.nodes.set newNodeIndex newNode
      let nodes2 :=
        if node.next ≠ 0 then
          nodes1.set node.next { (nodes1.getD node.next default) with previous := newNodeIndex }
        else nodes1
      let tail1 := if node.next ≠ 0 then l1.tail else newNodeIndex
      let nodes3 := nodes2.set thisIndex { (nodes2.getD thisIndex default) with next := newNodeIndex }
      some { l1 with nodes := nodes3, tail := tail1, size := l1.size + 1 }

/-- InsertPrevious (lines 326-357), mirror image of InsertNext. -/
def InsertPrevious (l : LinkedList) (h : Option LinkedListNode) (value : Int) : Option LinkedList :=
  match h with
  | none => none
  | some node =>
    let (mem, offset, grew, _ok) := Allocate l.memory 1
    let newNodeIndex := offset + 1
    let nodes0 := if grew then resizeTo (mem.capacity + 1) default l.nodes else l.nodes
    let values0 := if grew then resizeTo (mem.capacity + 1) 0 l.values else l.values
    let values1 := values0.set newNodeIndex value
    let l1 : LinkedList :=
      { head := l.head, tail := l.tail, size := l.size,
        nodes := nodes0, values := values1, memory := mem, ref := l.ref }
    match findNodeIndex l1 node with
    | none => none
    | some thisIndex =>
      let newNode : LinkedListNodeSlot :=
        { next := thisIndex, previous := node.previous, valueIndex := newNodeIndex }
      let nodes1 := l1.nodes.set newNodeIndex newNode
      let nodes2 :=
        if node.previous ≠ 0 then
          nodes1.set node.previous { (nodes1.getD node.previous default) with next := newNodeIndex }
        else nodes1
      let head1 := if node.previous ≠ 0 then l1.head else newNodeIndex
      let nodes3 := nodes2.set thisIndex { (nodes2.getD thisIndex default) with previous := newNodeIndex }
      some { l1 with nodes := nodes3, head := head1, size := l1.size + 1 }

/-- Next (lines 363-375): the composite literal at lines 369-374 fills
Value, linkedList, next and previous but omits valueIndex, which is
therefore left at its zero value 0. -/
def Next (l : LinkedList) (h : LinkedListNode) : Option LinkedListNode :=
  if h.next = 0 then none
  else
    let node := l.nodes.getD h.next default
    some { value := l.values.getD node.valueIndex 0,
           valueIndex := 0,
           listRef := l.ref, next := node.next, previous := node.previous }

/-- Previous (lines 382-394): like Next, the composite literal omits
valueIndex (zero value 0). -/
def Previous (l : LinkedList) (h : LinkedListNode) : Option LinkedListNode :=
  if h.previous = 0 then none
  else
    let node := l.nodes.getD h.previous default
    some { value := l.values.getD node.valueIndex 0,
           valueIndex := 0,
           listRef := l.ref, next := node.next, previous := node.previous }

/-- One step of a next-walk: the sentinel stays put, any other index
moves to its node's next field. -/
def stepNext (l : LinkedList) (idx : Nat) : Nat :=
  if idx = 0 then 0 else (l.nodes.getD idx default).next

/-- k steps of a next-walk from idx. -/
def walkNext (l : LinkedList) (idx : Nat) : Nat → Nat
  | 0 => idx
  | k+1 => walkNext l (stepNext l idx) k

/-- The head-to-tail traversal of values, reading at most fuel nodes. -/
def traverseValues (l : LinkedList) : Nat → Nat → List Int
  | _, 0 => []
  | idx, fuel+1 =>
    if idx = 0 then []
    else
      let node := l.nodes.getD idx default
      l.values.getD node.valueIndex 0 :: traverseValues l node.next fuel

/-- The full traversal: size steps from head. -/
def traversal (l : LinkedList) : List Int :=
  traverseValues l l.head l.size

/-! ## Percent: embedding of the contracts package (src/unnamed/part_000)

Go's float64 is modelled as an abstract type equipped with the two
operations the code uses: division and multiplication, plus the literal
100.0.  Every statement proved below holds for any interpretation of
these operations, in particular for IEEE-754 doubles. -/

/-- The float64 operations used by the contracts package. -/
structure FloatOps (α : Type) where
  fdiv : α → α → α
  fmul : α → α → α
  c100 : α

/-- Percent (part_000 line 4): a wrapper storing one float64. -/
structure Percent (α : Type) where
  val : α
deriving DecidableEq

/-- MakePercent (lines 13-15): stores percentage / 100.0. -/
def MakePercent (ops : FloatOps α) (percentage : α) : Percent α :=
  ⟨ops.fdiv percentage ops.c100⟩

/-- MakePercentFromDecimal (lines 24-26): stores the decimal directly. -/
def MakePercentFromDecimal (decimal : α) : Percent α :=
  ⟨decimal⟩

/-- AsDecimal (lines 32-34): returns the stored value. -/
def AsDecimal (p : Percent α) : α := p.val

/-- AsPercentage (lines 40-42): returns the stored value times 100.0. -/
def AsPercentage (ops : FloatOps α) (p : Percent α) : α :=
  ops.fmul p.val ops.c100

/-! ## Concrete states and inputs used by the theorems -/

/-- The ascending sequence 0, 1, ..., n-1. -/
def intRange (n : Nat) : List Int := (List.range n).map (fun k => (k : Int))

/-- The list built by append(10); append(20): slot 1 holds 10 (head),
slot 2 holds 20 (tail). -/
def listTwo : LinkedList := Append (Append (NewLinkedList 0 []) 10) 20

/-- What InsertInt produces on the 65-element ascending range and
value 65: the value lands at index 1, where the sub-range-relative
galloping index points. -/
def brokenInsert : List Int := (intRange 65).take 1 ++ (65 : Int) :: (intRange 65).drop 1

/-! ## Theorems -/

/-! ### Helper lemmas for the binary search and galloping search -/

/-- Random access into an ascending sequence is monotone. -/
theorem ascending_get_mono (slice : List Int) (hs : Ascending slice)
    (i j : Nat) (hi : i < slice.length) (hj : j < slice.length) (hij : i ≤ j) :
    slice.get ⟨i, hi⟩ ≤ slice.get ⟨j, hj⟩ := by
  have hp : List.Pairwise (· ≤ ·) slice := hs
  rcases Nat.eq_or_lt_of_le hij with h | h
  · subst h; rfl
  · exact List.pairwise_iff_get.mp hp ⟨i, hi⟩ ⟨j, hj⟩ h

/-- The binary-search loop terminates within its fuel and never reads
out of bounds: whenever high is within the slice and the fuel exceeds
the width of the window, it produces a result between low and high. -/
theorem bsLoop_total (slice : List Int) (target : Int) :
    ∀ fuel low high, low ≤ high → high ≤ slice.length → high - low < fuel →
    ∃ r, bsLoop slice target fuel low high = some r ∧ low ≤ r ∧ r ≤ high := by
  intro fuel
  induction fuel with
  | zero => intro low high _ _ hf; omega
  | succ f ih =>
    intro low high hlow hh hf
    by_cases hlh : low < high
    · have hmlt : (low + high) / 2 < high := by omega
      have hmlen : (low + high) / 2 < slice.length := by omega
      rw [bsLoop]
      simp only [if_pos hlh, List.get?_eq_get hmlen]
      by_cases hv : slice.get ⟨(low + high) / 2, hmlen⟩ < target
      · rw [if_pos hv]
        obtain ⟨r, hr, h1, h2⟩ := ih ((low + high) / 2 + 1) high (by omega) hh (by omega)
        exact ⟨r, hr, by omega, h2⟩
      · rw [if_neg hv]
        obtain ⟨r, hr, h1, h2⟩ := ih low ((low + high) / 2) (by omega) (by omega) (by omega)
        exact ⟨r, hr, h1, by omega⟩
    · rw [bsLoop]
      simp only [if_neg hlh]
      exact ⟨low, rfl, le_refl _, by omega⟩

/-- BinarySearchInt never fails: the fuel length+1 always suffices and
every read is in bounds. -/
theorem BinarySearchInt_isSome (slice : List Int) (target : Int) :
    ∃ p, BinarySearchInt slice target = some p := by
  obtain ⟨r, hr, -, -⟩ :=
    bsLoop_total slice target (slice.length + 1) 0 slice.length (by omega) (le_refl _) (by omega)
  exact ⟨_, by unfold BinarySearchInt; rw [hr, Option.map_some']⟩

/-- The backward walk does not move when everything before low is
strictly below the target. -/
theorem walkBack_fixed (slice : List Int) (target : Int) (low : Nat)
    (h : ∀ j, (hj : j < slice.length) → j < low → slice.get ⟨j, hj⟩ < target)
    (hlen : low ≤ slice.length) :
    walkBack slice target low = low := by
  cases low with
  | zero => rfl
  | succ l =>
    have hl : l < slice.length := by omega
    have hlt := h l hl (by omega)
    rw [walkBack, List.get?_eq_get hl, if_neg]
    simp only [Option.some.injEq]
    omega

/-- The loop invariant of the binary search on an ascending sequence:
the result separates the elements strictly below the target from those
at or above it. -/
theorem bsLoop_spec (slice : List Int) (target : Int) (hs : Ascending slice) :
    ∀ fuel low high, low ≤ high → high ≤ slice.length → high - low < fuel →
      (∀ j, (hj : j < slice.length) → j < low → slice.get ⟨j, hj⟩ < target) →
      (∀ j, (hj : j < slice.length) → high ≤ j → target ≤ slice.get ⟨j, hj⟩) →
      ∃ r, bsLoop slice target fuel low high = some r ∧ low ≤ r ∧ r ≤ high ∧
        (∀ j, (hj : j < slice.length) → j < r → slice.get ⟨j, hj⟩ < target) ∧
        (∀ j, (hj : j < slice.length) → r ≤ j → target ≤ slice.get ⟨j, hj⟩) := by
  intro fuel
  induction fuel with
  | zero => intro low high _ _ hf; omega
  | succ f ih =>
    intro low high hlow hh hf hlo hhi
    by_cases hlh : low < high
    · have hmlt : (low + high) / 2 < high := by omega
      have hmge : low ≤ (low + high) / 2 := by omega
      have hmlen : (low + high) / 2 < slice.length := by omega
      rw [bsLoop]
      simp only [if_pos hlh, List.get?_eq_get hmlen]
      by_cases hv : slice.get ⟨(low + high) / 2, hmlen⟩ < target
      · rw [if_pos hv]
        have hlo2 : ∀ j, (hj : j < slice.length) → j < (low + high) / 2 + 1 →
            slice.get ⟨j, hj⟩ < target := by
          intro j hj hjlt
          rcases Nat.lt_or_ge j low with hc | hc
          · exact hlo j hj hc
          · exact lt_of_le_of_lt
              (ascending_get_mono slice hs j ((low + high) / 2) hj hmlen (by omega)) hv
        obtain ⟨r, hr, h1, h2, h3, h4⟩ :=
          ih ((low + high) / 2 + 1) high (by omega) hh (by omega) hlo2 hhi
        exact ⟨r, hr, by omega, h2, h3, h4⟩
      · rw [if_neg hv]
        have hhi2 : ∀ j, (hj : j < slice.length) → (low + high) / 2 ≤ j →
            target ≤ slice.get ⟨j, hj⟩ := by
          intro j hj hjge
          exact le_trans (le_of_not_lt hv)
            (ascending_get_mono slice hs ((low + high) / 2) j hmlen hj (by omega))
        obtain ⟨r, hr, h1, h2, h3, h4⟩ :=
          ih low ((low + high) / 2) (by omega) (by omega) (by omega) hlo hhi2
        exact ⟨r, hr, h1, by omega, h3, h4⟩
    · rw [bsLoop]
      simp only [if_neg hlh]
      exact ⟨low, rfl, le_refl _, by omega, hlo, fun j hj hge => hhi j hj (by omega)⟩

/-- The galloping probe loop always terminates within fuel 64 with every
read in bounds, for any slice a Go program can construct (length at most
2^63) and any reachable probe state: span pattern 2^k with 6 ≤ k ≤ 63
and prevIndex inside the slice.  Once k reaches 63 the span pattern is
interpreted as the negative value -2^63, currentIndex falls below zero
and the loop exits through the clamped binary search. -/
theorem gallopLoop_total (slice : List Int) (target : Int) (hlen : slice.length ≤ 2^63) :
    ∀ fuel k prevIndex, 6 ≤ k → k ≤ 63 → 64 - k ≤ fuel → prevIndex < slice.length →
    ∃ p, gallopLoop slice target fuel prevIndex (2^k) = some p := by
  intro fuel
  induction fuel with
  | zero => intro k prev h6 h63 hf hp; omega
  | succ f ih =>
    intro k prev h6 h63 hf hp
    by_cases hk : k ≤ 62
    · have hsmall : (2:Nat)^k < 2^63 := Nat.pow_lt_pow_right one_lt_two (by omega)
      have hcur : (prev : Int) + toSigned64 (2^k) = ((prev + 2^k : Nat) : Int) := by
        unfold toSigned64
        rw [if_pos hsmall]
        push_cast
        ring
      rw [gallopLoop]
      simp only [hcur]
      by_cases hcl : (slice.length : Int) ≤ ((prev + 2^k : Nat) : Int)
      · rw [if_pos (Or.inr hcl)]
        exact BinarySearchInt_isSome _ _
      · have hinb : prev + 2^k < slice.length := by exact_mod_cast lt_of_not_le hcl
        rw [if_neg (by push_neg; exact ⟨by positivity, lt_of_not_le hcl⟩)]
        simp only [Int.toNat_natCast, List.get?_eq_get hinb]
        by_cases hv : slice.get ⟨prev + 2^k, hinb⟩ < target
        · rw [if_pos hv]
          have hspan : ((2:Nat)^k * 2) % 2^64 = 2^(k+1) := by
            rw [← pow_succ]
            exact Nat.mod_eq_of_lt (Nat.pow_lt_pow_right one_lt_two (by omega))
          rw [hspan]
          exact ih (k+1) (prev + 2^k) (by omega) (by omega) (by omega) hinb
        · rw [if_neg hv]
          exact BinarySearchInt_isSome _ _
    · have hk63 : k = 63 := by omega
      subst hk63
      have hts : toSigned64 (2^63) = ((2^63 : Nat) : Int) - 2^64 := by
        unfold toSigned64
        rw [if_neg (lt_irrefl _)]
      have hp63 : (prev : Int) < 2^63 := by
        have h1 : prev < 2^63 := lt_of_lt_of_le hp hlen
        exact_mod_cast h1
      have hcond : (prev : Int) + toSigned64 (2^63) < 0 := by
        rw [hts]
        push_cast
        omega
      rw [gallopLoop]
      rw [if_pos (Or.inl hcond)]
      exact BinarySearchInt_isSome _ _

/-- C10: gallopingSearch is total and never indexes out of bounds, for
every slice a Go program can construct (Go slice lengths are below 2^63)
and every target.  In this embedding every slice read goes through get?
and a failed read or exhausted loop fuel yields none, so the some result
states that every read was in bounds and the function returned: short
slices delegate to the binary search, and the probe loop exits through
the clamp branch when a doubling step passes the end or wraps below
zero. -/
theorem gallopingSearch_total (slice : List Int) (target : Int) (hlen : slice.length ≤ 2^63) :
    ∃ p, GallopingSearchInt slice target = some p := by
  unfold GallopingSearchInt
  by_cases h : slice.length < 64
  · rw [if_pos h]
    exact BinarySearchInt_isSome slice target
  · rw [if_neg h]
    have h64 : (64 : Nat) = 2^6 := by norm_num
    rw [h64]
    exact gallopLoop_total slice target hlen (2^6) 6 0 (by norm_num) (by norm_num)
      (by norm_num) (by omega)

/-- C10 witness: totality evaluated on a slice of length 64 (the
threshold at which the probe loop actually runs). -/
theorem gallopingSearch_total_witness :
    ∃ p, GallopingSearchInt (List.replicate 64 (0 : Int)) 0 = some p :=
  gallopingSearch_total (List.replicate 64 (0 : Int)) 0 (by decide)

/-- C6: the exactSearch contract.  On the empty sequence the result is
(0, false); on an ascending sequence it is (0, false) when the target is
smaller than every element and (length, false) when it is larger than
every element; and whenever found is true, the returned index holds the
target and no earlier index does — the first occurrence, also in the
presence of duplicates. -/
theorem exactSearch_contract (slice : List Int) (target : Int) (hs : Ascending slice) :
    BinarySearchInt ([] : List Int) target = some (0, false) ∧
    ((∀ x ∈ slice, target < x) → BinarySearchInt slice target = some (0, false)) ∧
    ((∀ x ∈ slice, x < target) → BinarySearchInt slice target = some (slice.length, false)) ∧
    (∀ i, BinarySearchInt slice target = some (i, true) →
      slice.get? i = some target ∧ ∀ j, j < i → slice.get? j ≠ some target) := by
  obtain ⟨r, hr, hr0, hrh, hrlo, hrhi⟩ :=
    bsLoop_spec slice target hs (slice.length + 1) 0 slice.length (by omega) (le_refl _)
      (by omega) (fun j hj hlt => absurd hlt (by omega)) (fun j hj hge => absurd hj (by omega))
  refine ⟨rfl, ?_, ?_, ?_⟩
  · intro hsmall
    have hreq : r = 0 := by
      by_contra hne
      have h0 : 0 < r := by omega
      have hlen0 : 0 < slice.length := by omega
      have hlt := hrlo 0 hlen0 h0
      have hgt := hsmall _ (List.get_mem slice 0 hlen0)
      omega
    subst hreq
    unfold BinarySearchInt
    rw [hr, Option.map_some', if_neg]
    rintro ⟨hlt, heq⟩
    rw [List.get?_eq_get hlt] at heq
    simp only [Option.some.injEq] at heq
    have := hsmall _ (List.get_mem slice 0 hlt)
    omega
  · intro hbig
    have hreq : r = slice.length := by
      by_contra hne
      have hlt : r < slice.length := by omega
      have hge := hrhi r hlt (le_refl r)
      have := hbig _ (List.get_mem slice r hlt)
      omega
    subst hreq
    unfold BinarySearchInt
    rw [hr, Option.map_some', if_neg]
    rintro ⟨hlt, -⟩
    omega
  · intro i heq
    unfold BinarySearchInt at heq
    rw [hr, Option.map_some'] at heq
    by_cases hc : r < slice.length ∧ slice.get? r = some target
    · rw [if_pos hc] at heq
      obtain ⟨hrlt, hrget⟩ := hc
      rw [walkBack_fixed slice target r hrlo (by omega)] at heq
      simp only [Option.some.injEq, Prod.mk.injEq] at heq
      obtain ⟨hi, -⟩ := heq
      subst hi
      refine ⟨hrget, ?_⟩
      intro j hjlt
      have hjlen : j < slice.length := by omega
      rw [List.get?_eq_get hjlen]
      simp only [ne_eq, Option.some.injEq]
      have := hrlo j hjlen hjlt
      omega
    · rw [if_neg hc] at heq
      simp only [Option.some.injEq, Prod.mk.injEq] at heq
      exact absurd heq.2 (by simp)

/-- C6 witness: the contract applied to the ascending sequence 2, 4, 6
with target 10, which is larger than every element. -/
theorem exactSearch_contract_witness :
    BinarySearchInt ([2, 4, 6] : List Int) 10 = some (3, false) :=
  (exactSearch_contract [2, 4, 6] 10 (by decide)).2.2.1 (by decide)

/-- C1: the claim that gallopingSearch returns the same (index, found)
pair as exactSearch for every ascending sequence, the index being an
index into the whole sequence, fails on the code: on the ascending
sequence 0..64 with target 65 the probe loop advances prevIndex to 64
and then returns the binary-search result on the sub-range slice[64:65]
without rebasing it, yielding index 1 where exactSearch yields 65.  The
found flags agree; the index is sub-range-relative. -/
theorem gallopingSearch_diverges_from_exactSearch :
    GallopingSearchInt (intRange 65) 65 = some (1, false) ∧
    BinarySearchInt (intRange 65) 65 = some (65, false) := by
  constructor <;> decide

/-- C2: the claim that orderedInsert always preserves ascending order
fails on the code, through the same missing rebase in gallopingSearch:
inserting 65 into the ascending sequence 0..64 places it at index 1,
producing 0, 65, 1, 2, ..., 64 — length 66 as claimed, but no longer
ascending. -/
theorem orderedInsert_breaks_ascending_order :
    InsertInt (intRange 65) 65 false = some brokenInsert ∧
    brokenInsert.length = 66 ∧ ¬ Ascending brokenInsert := by
  refine ⟨by decide, by decide, by decide⟩

/-- C3: the claim that remove frees the allocator offset equal to the
node's slot index minus one fails on the code.  Remove unlinks the node
first and only then calls findNodeIndex, which scans from the (already
updated) head: the removed node is no longer reachable, so the scan
returns 0 and Free(0, 1) is issued.  Removing the tail handle (slot 2)
of the two-element list frees arena offset 0 — the still-live head's
offset — instead of offset 1: afterwards used is 1, offset 0 sits in the
order-0 free list, and offset 1 is in no free list. -/
theorem remove_frees_wrong_offset :
    (Remove listTwo (Tail listTwo)).map
      (fun l => (l.memory.used,
                 (l.memory.freeLists.getD 0 []).contains 0,
                 l.memory.freeLists.any (fun fl => fl.contains 1),
                 l.size))
      = some (1, true, false, 1) := by
  decide

/-- C4 counterexample: the claim that insertNext with a null handle is a
silent no-op fails on the code.  InsertNext is a method on the handle
and dereferences it unconditionally, so a nil handle is a Go runtime
panic, modelled here by the none result — not a no-op returning the
unchanged list. -/
theorem insertNext_nil_handle_panics :
    InsertNext (NewLinkedList 0 []) none 5 = none := rfl

/-- C4 amended: remove with a null or foreign handle is a silent no-op
leaving the entire list state unchanged; insertNext and insertPrevious
perform no such check — invoked on a null handle they dereference it and
abort (Go nil-pointer panic, the none result), and a non-null handle
always operates on the handle's own list. -/
theorem invalid_handle_contract (l : LinkedList) (h : LinkedListNode) (v : Int)
    (hne : h.listRef ≠ l.ref) :
    Remove l none = some l ∧ Remove l (some h) = some l ∧
    InsertNext l none v = none ∧ InsertPrevious l none v = none := by
  refine ⟨rfl, ?_, rfl, rfl⟩
  simp only [Remove, if_pos hne]

/-- C4 witness: the amended contract evaluated on the fresh list with
ref 0 and a handle stamped with the foreign ref 1. -/
theorem invalid_handle_contract_witness :
    Remove (NewLinkedList 0 []) none = some (NewLinkedList 0 []) ∧
    Remove (NewLinkedList 0 []) (some ⟨7, 1, 1, 0, 0⟩) = some (NewLinkedList 0 []) ∧
    InsertNext (NewLinkedList 0 []) none 5 = none ∧
    InsertPrevious (NewLinkedList 0 []) none 5 = none :=
  invalid_handle_contract (NewLinkedList 0 []) ⟨7, 1, 1, 0, 0⟩ 5 (by decide)

/-- C5: the claim that the walk invariants survive every operation
sequence fails on the code, as a consequence of Remove freeing offset 0
(see C3).  After append(10); append(20); remove(tail handle);
append(30), the allocator has handed the still-occupied slot 1 out
again: node 1's next pointer is node 1 itself, so with size() = 2 the
walk from head visits node 1 twice (not two distinct nodes) and the step
after reaching tail yields 1, never the null sentinel 0. -/
theorem walk_invariant_broken_by_remove :
    ((Remove listTwo (Tail listTwo)).map (fun l => Append l 30)).map
      (fun l => (Size l, l.head, l.tail,
                 walkNext l l.head 1, walkNext l l.head 2,
                 (l.nodes.getD 1 default).next))
      = some (2, 1, 1, 1, 1, 1) := by
  decide

/-- C7: the claim that every query handle is a complete snapshot fails
on the code for next and previous: their composite literals omit the
valueIndex field, so the handle carries slot index 0 instead of the
denoted node's slot index.  On the two-element list, next of the head
handle denotes slot 2 and previous of the tail handle denotes slot 1,
yet both carry valueIndex 0; the slots themselves store valueIndex 2 and
1, and head/tail handles do carry them. -/
theorem next_previous_handles_lose_slot_index :
    ((Head listTwo).bind (Next listTwo)).map
      (fun h => (h.value, h.valueIndex, h.next, h.previous)) = some (20, 0, 0, 1) ∧
    ((Tail listTwo).bind (Previous listTwo)).map
      (fun h => (h.value, h.valueIndex, h.next, h.previous)) = some (10, 0, 2, 0) ∧
    (listTwo.nodes.getD 2 default).valueIndex = 2 ∧
    (listTwo.nodes.getD 1 default).valueIndex = 1 ∧
    (Head listTwo).map (fun h => h.valueIndex) = some 1 ∧
    (Tail listTwo).map (fun h => h.valueIndex) = some 2 := by
  refine ⟨by decide, by decide, by decide, by decide, by decide, by decide⟩

/-- C8: the scenario from the spec.  From the empty list, append(1);
append(2); prepend(0) yields the head-to-tail value traversal 0, 1, 2;
popHead() then returns a handle with value 0 and leaves traversal 1, 2
with size 2. -/
theorem list_build_scenario :
    traversal (Prepend (Append (Append (NewLinkedList 0 []) 1) 2) 0) = [0, 1, 2] ∧
    ((PopHead (Prepend (Append (Append (NewLinkedList 0 []) 1) 2) 0)).1).map
      (fun h => h.value) = some 0 ∧
    traversal (PopHead (Prepend (Append (Append (NewLinkedList 0 []) 1) 2) 0)).2 = [1, 2] ∧
    Size (PopHead (Prepend (Append (Append (NewLinkedList 0 []) 1) 2) 0)).2 = 2 := by
  refine ⟨by decide, by decide, by decide, by decide⟩

/-- C9: the percentage wrapper's conversions round-trip exactly as the
contract states, for any interpretation of the float64 operations (in
particular IEEE-754 doubles): fromDecimal stores the value directly and
asDecimal returns it unchanged, so the composition is the identity; and
fromPercentage stores p/100 while asPercentage multiplies the stored
value by 100, so the composition is exactly (p/100)*100 under the
supplied arithmetic. -/
theorem percent_round_trips {α : Type} (ops : FloatOps α) (d p : α) :
    AsDecimal (MakePercentFromDecimal d) = d ∧
    AsPercentage ops (MakePercent ops p) = ops.fmul (ops.fdiv p ops.c100) ops.c100 :=
  ⟨rfl, rfl⟩

/-- C9 witness: the round trips evaluated over rational arithmetic at
d = 3/8 and p = 42. -/
theorem percent_round_trips_witness :
    AsDecimal (MakePercentFromDecimal ((3 : Rat)/8)) = (3 : Rat)/8 ∧
    AsPercentage ⟨(· / ·), (· * ·), 100⟩ (MakePercent ⟨(· / ·), (· * ·), 100⟩ (42 : Rat))
      = 42 / 100 * 100 :=
  percent_round_trips ⟨(· / ·), (· * ·), 100⟩ ((3 : Rat)/8) 42

end FDS
